import Mathlib

/-!
Verification of the load-balancer simulation core (`src/main.js`) of the
`lbsimulator` repository.

The JavaScript source is shallowly embedded: JS numbers are modelled as
rationals (`ℚ`), arrays as lists, and the mutable `LoadBalancerSimulation`
object as an explicit `SimState` record threaded through pure step
functions.  Randomness (`Math.random`) is modelled by oracle parameters,
and wall-clock time (`Date.now()`) by an explicit `now` argument.  The
`TypeError` thrown by an out-of-range server access is modelled by an
`Except.error` result carrying the state as already mutated at the throw
point.  All rendering (three.js meshes, DOM elements) is out of scope and
omitted from the state.
-/

/-- Embeds `class Request` (src/main.js:4-21): `id`, `cpuLoad`,
`memoryLoad`, `processingTime`, `startTime`.  The `mesh` field is
rendering-only and omitted. -/
structure Request where
  id : ℕ
  cpuLoad : ℚ
  memoryLoad : ℚ
  processingTime : ℚ
  startTime : ℚ
  deriving Repr, DecidableEq, Inhabited

/-- Embeds `Request.isComplete` (src/main.js:14-16):
`(Date.now() - this.startTime) >= this.processingTime`, with `Date.now()`
passed explicitly as `now`. -/
def Request.isComplete (r : Request) (now : ℚ) : Prop :=
  r.processingTime ≤ now - r.startTime

instance (r : Request) (now : ℚ) : Decidable (r.isComplete now) := by
  unfold Request.isComplete
  infer_instance

/-- Embeds `class Server` (src/main.js:23-68): the active request list and
the three per-server counters.  `position`, `mesh`, `cpuBar`, `memoryBar`
and `statsElement` are rendering-only and omitted. -/
structure Server where
  requests : List Request
  rejectedRequests : ℕ
  completedRequests : ℕ
  totalResponseTime : ℚ
  deriving Repr, DecidableEq, Inhabited

/-- Embeds `this.maxCpu = 100` (src/main.js:27). -/
def Server.maxCpu : ℚ := 100

/-- Embeds `this.maxMemory = 100` (src/main.js:28). -/
def Server.maxMemory : ℚ := 100

/-- Embeds `Server.getAverageResponseTime` (src/main.js:38-41). -/
def Server.getAverageResponseTime (s : Server) : ℚ :=
  if s.completedRequests = 0 then 0
  else s.totalResponseTime / (s.completedRequests : ℚ)

/-- Embeds `Server.getCurrentLoad` (src/main.js:43-47): the pair
`(totalCpu, totalMemory)` of sums over the active requests. -/
def Server.getCurrentLoad (s : Server) : ℚ × ℚ :=
  ((s.requests.map Request.cpuLoad).sum, (s.requests.map Request.memoryLoad).sum)

/-- Embeds `Server.canHandleRequest` (src/main.js:49-53):
`currentLoad.cpu + request.cpuLoad <= this.maxCpu` and likewise for
memory. -/
def Server.canHandleRequest (s : Server) (request : Request) : Prop :=
  s.getCurrentLoad.1 + request.cpuLoad ≤ Server.maxCpu ∧
  s.getCurrentLoad.2 + request.memoryLoad ≤ Server.maxMemory

instance (s : Server) (request : Request) : Decidable (s.canHandleRequest request) := by
  unfold Server.canHandleRequest
  infer_instance

/-- Embeds `Server.addRequest` (src/main.js:55-57): `requests.push(request)`. -/
def Server.addRequest (s : Server) (request : Request) : Server :=
  { s with requests := s.requests ++ [request] }

/-- Embeds `Server.updateRequests` (src/main.js:59-68): count the completed
requests into `completedRequests`, add their processing times to
`totalResponseTime`, and keep only the uncompleted requests. -/
def Server.updateRequests (s : Server) (now : ℚ) : Server :=
  let completedNow := s.requests.filter (fun req => decide (req.isComplete now))
  { s with
    completedRequests := s.completedRequests + completedNow.length
    totalResponseTime := s.totalResponseTime + (completedNow.map Request.processingTime).sum
    requests := s.requests.filter (fun req => !(decide (req.isComplete now))) }

/-- In `RoundRobinAlgorithm.selectServer` (src/main.js:81) and
`RandomAlgorithm.selectServer` (src/main.js:95) the availability test is
written `servers[index].canHandleRequest` — a *property reference* to the
method, not a call.  A defined method reference is always truthy in
JavaScript, so this condition is the constant `true`. -/
def canHandleRequestProp : Bool := true

/-- Embeds `RoundRobinAlgorithm.selectServer` (src/main.js:77-87): scan
`i = 0, …, servers.length - 1`, return `(currentIndex + i) % servers.length`
for the first `i` whose (truthy) check passes, else `currentIndex`. -/
def RoundRobinAlgorithm.selectServer (servers : List Server) (currentIndex : ℕ) : ℕ :=
  match (List.range servers.length).find? (fun _ => canHandleRequestProp) with
  | some i => (currentIndex + i) % servers.length
  | none => currentIndex

/-- Models one draw `Math.floor(Math.random() * n)` from the random oracle:
a value in `[0, n)` for `n > 0`, and `0` when `n = 0`. -/
def jsRandIndex (oracle : ℕ → ℕ) (k n : ℕ) : ℕ :=
  if n = 0 then 0 else oracle k % n

/-- Embeds `RandomAlgorithm.selectServer` (src/main.js:89-102).  The
`while (tried.size < servers.length)` loop is entered exactly when the
server list is nonempty; its body draws an index and returns it if the
(truthy) check `servers[index].canHandleRequest` passes, which is always,
so the first draw is returned.  After the loop a final random draw would
be returned. -/
def RandomAlgorithm.selectServer (oracle : ℕ → ℕ) (servers : List Server)
    (currentIndex : ℕ) : ℕ :=
  if 0 < servers.length then
    if canHandleRequestProp then jsRandIndex oracle 0 servers.length
    else jsRandIndex oracle 1 servers.length
  else jsRandIndex oracle 0 servers.length

/-- Shared shape of the three scan-for-minimum policies
(src/main.js:104-160): fold over the indices with accumulator
`(minScore, selectedIndex)` initialised to `(Infinity, 0)` (modelled as
`(⊤, 0)` in `WithTop α`), updating on strict improvement only. -/
def selectMinIndex {α : Type} [LinearOrder α] (score : ℕ → α) (n : ℕ) : ℕ :=
  ((List.range n).foldl
    (fun acc index =>
      if (score index : WithTop α) < acc.1 then ((score index : WithTop α), index) else acc)
    ((⊤ : WithTop α), 0)).2

/-- Embeds `LeastRequestsAlgorithm.selectServer` (src/main.js:104-119):
minimise `server.requests.length`, first strict improvement wins. -/
def LeastRequestsAlgorithm.selectServer (servers : List Server) (currentIndex : ℕ) : ℕ :=
  selectMinIndex (fun index => (servers.getD index default).requests.length) servers.length

/-- Embeds the `effectiveTime` computation of
`LeastResponseTimeAlgorithm.selectServer` (src/main.js:128-132):
`avgResponseTime === 0 ? server.requests.length * 100 : avgResponseTime`. -/
def LeastResponseTimeAlgorithm.effectiveTime (server : Server) : ℚ :=
  if server.getAverageResponseTime = 0 then (server.requests.length : ℚ) * 100
  else server.getAverageResponseTime

/-- Embeds `LeastResponseTimeAlgorithm.selectServer` (src/main.js:121-142):
minimise the effective time, first strict improvement wins. -/
def LeastResponseTimeAlgorithm.selectServer (servers : List Server) (currentIndex : ℕ) : ℕ :=
  selectMinIndex
    (fun index => LeastResponseTimeAlgorithm.effectiveTime (servers.getD index default))
    servers.length

/-- Embeds `DynamicAlgorithm.selectServer` (src/main.js:144-160): minimise
the current aggregate cpu load, first strict improvement wins. -/
def DynamicAlgorithm.selectServer (servers : List Server) (currentIndex : ℕ) : ℕ :=
  selectMinIndex (fun index => (servers.getD index default).getCurrentLoad.1) servers.length

/-- Models JavaScript `Math.round`: round half toward positive infinity,
`Math.round(x) = Math.floor(x + 0.5)`. -/
def jsRound (q : ℚ) : ℤ := ⌊q + 1 / 2⌋

/-- Embeds `LoadBalancerSimulation.calculateBalanceScore`
(src/main.js:716-731): `100` for an empty list or zero mean, otherwise
`Math.round(Math.max(0, 100 * (1 - maxDeviation / (mean * 2))))` where
`maxDeviation` is the largest absolute deviation from the mean
(`Math.max(...)` over the deviations, modelled as a fold of `max` which on
the guarded nonempty list of nonnegative deviations agrees with it). -/
def calculateBalanceScore (values : List ℚ) : ℤ :=
  if values.length = 0 then 100
  else
    let mean := values.sum / (values.length : ℚ)
    if mean = 0 then 100
    else
      let maxDeviation := (values.map (fun v => |v - mean|)).foldr max 0
      jsRound (max 0 (100 * (1 - maxDeviation / (mean * 2))))

/-- Embeds `this.requestTypes` (src/main.js:196-201): the fixed catalog of
`(cpu, memory)` demand pairs (colors are rendering-only and omitted). -/
def requestTypes : List (ℚ × ℚ) := [(5, 3), (8, 4), (4, 8), (10, 6)]

/-- Embeds `this.maxDataPoints = 50` (src/main.js:208). -/
def maxDataPoints : ℕ := 50

/-- Embeds the simulation-owned mutable state of `LoadBalancerSimulation`
(src/main.js:162-251): the server list, the round-robin cursor, the
request-id counter, the total rejection counter, the two balance-history
arrays and the configured server count.  Scene/camera/renderer/DOM fields
are rendering-only and omitted. -/
structure SimState where
  servers : List Server
  currentServerIndex : ℕ
  requestCount : ℕ
  totalRejectedRequests : ℕ
  cpuBalanceHistory : List ℤ
  memoryBalanceHistory : List ℤ
  numServers : ℕ
  deriving Repr, DecidableEq

/-- A freshly constructed `new Server(position)` (src/main.js:24-36): no
active requests, all counters zero. -/
def freshServer : Server :=
  { requests := [], rejectedRequests := 0, completedRequests := 0, totalResponseTime := 0 }

/-- The `Request` constructed at the top of
`LoadBalancerSimulation.createRequest` (src/main.js:545-552): demands from
the randomly chosen catalog entry, id `this.requestCount++`, the random
`duration`, and `startTime = Date.now()` (passed as `now`).  The random
type choice `Math.floor(Math.random() * this.requestTypes.length)` is
modelled by reducing the oracle value `typeChoice` modulo the catalog
length. -/
def mkRequest (st : SimState) (typeChoice : ℕ) (duration now : ℚ) : Request :=
  let requestType := requestTypes.getD (typeChoice % requestTypes.length) (0, 0)
  { id := st.requestCount
    cpuLoad := requestType.1
    memoryLoad := requestType.2
    processingTime := duration
    startTime := now }

/-- Embeds `LoadBalancerSimulation.createRequest` (src/main.js:543-618),
its scheduling/admission core (lines 564-583).  The request id counter is
incremented when the `Request` is constructed, before the policy runs.
If the policy's index is within the server list: on a favorable
`canHandleRequest` the cursor advances to `(serverIndex + 1) % numServers`
and the request is pushed onto that server; otherwise the simulation-wide
and the selected server's rejection counters are incremented and the
request is discarded.  If the index is out of range,
`this.servers[serverIndex]` is `undefined` and the subsequent
`server.canHandleRequest(request)` call throws a `TypeError`, modelled as
`Except.error` carrying the state as mutated so far (only the id counter). -/
def LoadBalancerSimulation.createRequest (st : SimState)
    (select : List Server → ℕ → ℕ) (typeChoice : ℕ) (duration now : ℚ) :
    Except SimState SimState :=
  let request := mkRequest st typeChoice duration now
  let st₁ := { st with requestCount := st.requestCount + 1 }
  let serverIndex := select st.servers st.currentServerIndex
  if h : serverIndex < st₁.servers.length then
    let server := st₁.servers.get ⟨serverIndex, h⟩
    if server.canHandleRequest request then
      Except.ok { st₁ with
        currentServerIndex := (serverIndex + 1) % st₁.numServers
        servers := st₁.servers.set serverIndex (server.addRequest request) }
    else
      Except.ok { st₁ with
        totalRejectedRequests := st₁.totalRejectedRequests + 1
        servers := st₁.servers.set serverIndex
          { server with rejectedRequests := server.rejectedRequests + 1 } }
  else
    Except.error st₁

/-- Embeds the per-server reclamation pass of
`LoadBalancerSimulation.updateServerVisuals` (src/main.js:651-698), which
calls `server.updateRequests()` for every server (the rest of the method
updates rendering only). -/
def LoadBalancerSimulation.updateServerVisuals (st : SimState) (now : ℚ) : SimState :=
  { st with servers := st.servers.map (fun s => s.updateRequests now) }

/-- Embeds the history bookkeeping of
`LoadBalancerSimulation.updateStatsDisplay` (src/main.js:776-793): compute
the two balance scores from the current server loads, push both onto their
history arrays, and `shift()` both when the cpu history has grown past
`maxDataPoints` (the remainder of the method draws the graphs). -/
def LoadBalancerSimulation.updateStatsDisplay (st : SimState) : SimState :=
  let cpuBalance := calculateBalanceScore (st.servers.map (fun s => s.getCurrentLoad.1))
  let memoryBalance := calculateBalanceScore (st.servers.map (fun s => s.getCurrentLoad.2))
  let cpuHist := st.cpuBalanceHistory ++ [cpuBalance]
  let memHist := st.memoryBalanceHistory ++ [memoryBalance]
  if maxDataPoints < cpuHist.length then
    { st with cpuBalanceHistory := cpuHist.tail, memoryBalanceHistory := memHist.tail }
  else
    { st with cpuBalanceHistory := cpuHist, memoryBalanceHistory := memHist }

/-- Embeds `LoadBalancerSimulation.clearRequests` (src/main.js:912-934):
empty every server's request list, zero every server's `rejectedRequests`,
and zero `requestCount` and `totalRejectedRequests`.  (It does not touch
`completedRequests`, `totalResponseTime`, or the history arrays.) -/
def LoadBalancerSimulation.clearRequests (st : SimState) : SimState :=
  { st with
    servers := st.servers.map (fun s => { s with requests := [], rejectedRequests := 0 })
    requestCount := 0
    totalRejectedRequests := 0 }

/-- Embeds `LoadBalancerSimulation.setNumServers` (src/main.js:906-910):
set `numServers`, reset the cursor, and rebuild the server list from
scratch with `count` fresh servers (`initializeServers`,
src/main.js:391-430). -/
def LoadBalancerSimulation.setNumServers (st : SimState) (count : ℕ) : SimState :=
  { st with
    numServers := count
    currentServerIndex := 0
    servers := List.replicate count freshServer }

/-- Embeds `resetSimulation` (src/main.js:997-1021) restricted to the
simulation core: `simulation.setNumServers(initialValues.servers)` with
`initialValues.servers = 4`, followed by `simulation.clearRequests()`
(the other statements reset DOM controls and the timer). -/
def resetSimulation (st : SimState) : SimState :=
  LoadBalancerSimulation.clearRequests (LoadBalancerSimulation.setNumServers st 4)

/-- The state set up by the `LoadBalancerSimulation` constructor
(src/main.js:162-251): `numServers = 4` with four fresh servers, cursor
`0`, both counters `0`, empty history arrays. -/
def initState : SimState :=
  { servers := List.replicate 4 freshServer
    currentServerIndex := 0
    requestCount := 0
    totalRejectedRequests := 0
    cpuBalanceHistory := []
    memoryBalanceHistory := []
    numServers := 4 }

/-- The states reachable through the public interface of the simulation:
from the freshly constructed state, any interleaving of request
submissions (under an arbitrary policy function and arbitrary
random/clock oracles — a superset of the five built-in policies),
per-tick reclamations, statistics samples, clears, server-count changes
and resets. -/
inductive Reachable : SimState → Prop
  | init : Reachable initState
  | submit_ok {st st' : SimState} {f : List Server → ℕ → ℕ} {t : ℕ} {d now : ℚ} :
      Reachable st → LoadBalancerSimulation.createRequest st f t d now = Except.ok st' →
      Reachable st'
  | submit_err {st st' : SimState} {f : List Server → ℕ → ℕ} {t : ℕ} {d now : ℚ} :
      Reachable st → LoadBalancerSimulation.createRequest st f t d now = Except.error st' →
      Reachable st'
  | tick {st : SimState} (now : ℚ) :
      Reachable st → Reachable (LoadBalancerSimulation.updateServerVisuals st now)
  | sample {st : SimState} :
      Reachable st → Reachable (LoadBalancerSimulation.updateStatsDisplay st)
  | clear {st : SimState} :
      Reachable st → Reachable (LoadBalancerSimulation.clearRequests st)
  | setServers {st : SimState} (count : ℕ) :
      Reachable st → Reachable (LoadBalancerSimulation.setNumServers st count)
  | reset {st : SimState} :
      Reachable st → Reachable (resetSimulation st)

/-- The per-server capacity invariant: every active request carries
nonnegative demands (as every catalog request does) and the summed cpu
and memory loads respect the fixed capacities. -/
def ServerInv (s : Server) : Prop :=
  (∀ r ∈ s.requests, 0 ≤ r.cpuLoad ∧ 0 ≤ r.memoryLoad) ∧
  s.getCurrentLoad.1 ≤ Server.maxCpu ∧ s.getCurrentLoad.2 ≤ Server.maxMemory

/-- The simulation-wide capacity invariant: every server satisfies
`ServerInv`. -/
def SimInv (st : SimState) : Prop := ∀ s ∈ st.servers, ServerInv s

/-- A request of the catalog's fourth type (src/main.js:200):
`{ cpu: 10, memory: 6 }`. -/
def exRequest : Request :=
  { id := 0, cpuLoad := 10, memoryLoad := 6, processingTime := 250, startTime := 0 }

/-- A server whose active set holds ten requests of type `(10, 6)`, hence
cpu load `100` and memory load `60`: it cannot take another `(10, 6)`
request. -/
def exServerFull : Server :=
  { requests := List.replicate 10 exRequest
    rejectedRequests := 0, completedRequests := 0, totalResponseTime := 0 }

/-- An idle server: it can take any catalog request. -/
def exServerEmpty : Server := freshServer

/-- The constructor state with a nonempty balance history, as after one
statistics sample. -/
def exHistState : SimState :=
  { initState with cpuBalanceHistory := [50], memoryBalanceHistory := [50] }


/-! ## Helper lemmas -/

/-- The truthy property check makes Round Robin return the cursor
whenever it is in range. -/
theorem roundRobin_selectServer_eq (servers : List Server) (currentIndex : ℕ)
    (h0 : 0 < servers.length) (hc : currentIndex < servers.length) :
    RoundRobinAlgorithm.selectServer servers currentIndex = currentIndex := by
  unfold RoundRobinAlgorithm.selectServer
  cases servers with
  | nil => exact absurd h0 (by simp)
  | cons s rest =>
    rw [List.length_cons, List.range_succ_eq_map,
      List.find?_cons_of_pos _ (by rfl)]
    have hlt : currentIndex < rest.length + 1 := by simpa using hc
    simpa using Nat.mod_eq_of_lt hlt

/-- The truthy property check makes the Random policy return its first
draw whenever the server list is nonempty. -/
theorem random_selectServer_eq (oracle : ℕ → ℕ) (servers : List Server)
    (currentIndex : ℕ) (h0 : 0 < servers.length) :
    RandomAlgorithm.selectServer oracle servers currentIndex =
      oracle 0 % servers.length := by
  unfold RandomAlgorithm.selectServer jsRandIndex canHandleRequestProp
  simp [h0, Nat.pos_iff_ne_zero.mp h0]

/-- An out-of-range policy index makes `createRequest` throw (the
`undefined.canHandleRequest` `TypeError`), with only the request-id
counter already incremented. -/
theorem createRequest_out_of_range (st : SimState) (select : List Server → ℕ → ℕ)
    (typeChoice : ℕ) (duration now : ℚ)
    (h : st.servers.length ≤ select st.servers st.currentServerIndex) :
    LoadBalancerSimulation.createRequest st select typeChoice duration now =
      Except.error { st with requestCount := st.requestCount + 1 } := by
  unfold LoadBalancerSimulation.createRequest
  dsimp only
  split
  · next h' => exact absurd h' (not_lt.mpr h)
  · rfl

/-- The loaded example server fails the capacity pre-check for the
`(10, 6)` request: `100 + 10 > 100`. -/
theorem exServerFull_not_canHandle : ¬ exServerFull.canHandleRequest exRequest := by
  simp only [Server.canHandleRequest, Server.getCurrentLoad, exServerFull, exRequest,
    Server.maxCpu, Server.maxMemory, List.map_replicate, List.sum_replicate, smul_eq_mul]
  norm_num

/-- The idle example server passes the capacity pre-check for the
`(10, 6)` request. -/
theorem exServerEmpty_canHandle : exServerEmpty.canHandleRequest exRequest := by
  simp only [Server.canHandleRequest, Server.getCurrentLoad, exServerEmpty, freshServer,
    exRequest, Server.maxCpu, Server.maxMemory, List.map_nil, List.sum_nil]
  norm_num

/-! ## C3 — Round Robin -/

/-- C3, counterexample.  With cursor `0`, server `0` fails the capacity
pre-check for the `(10, 6)` request while server `1` passes it, yet
`RoundRobinAlgorithm.selectServer` returns `0`: the policy does not
return the first circularly scanned index whose capacity pre-check is
favorable (which would be `1`), because its check is a truthy property
reference, not a capacity test. -/
theorem C3_counterexample :
    ¬ exServerFull.canHandleRequest exRequest ∧
    exServerEmpty.canHandleRequest exRequest ∧
    RoundRobinAlgorithm.selectServer [exServerFull, exServerEmpty] 0 = 0 := by
  refine ⟨exServerFull_not_canHandle, exServerEmpty_canHandle, ?_⟩
  exact roundRobin_selectServer_eq _ 0 (by decide) (by decide)

/-- C3 (amended): the pre-check in `RoundRobinAlgorithm.selectServer` is a
truthy property reference that always passes, so for every non-empty
server list and every cursor in `[0, serverCount)` the policy returns the
cursor itself (the scan stops at its very first step); no server is ever
skipped for being overloaded. -/
theorem C3_roundRobin_returns_cursor (servers : List Server) (currentIndex : ℕ)
    (h0 : 0 < servers.length) (hc : currentIndex < servers.length) :
    RoundRobinAlgorithm.selectServer servers currentIndex = currentIndex :=
  roundRobin_selectServer_eq servers currentIndex h0 hc

/-- C3, witness for the amended theorem at a concrete input. -/
theorem C3_roundRobin_returns_cursor_witness :
    RoundRobinAlgorithm.selectServer [exServerFull, exServerEmpty] 1 = 1 :=
  C3_roundRobin_returns_cursor [exServerFull, exServerEmpty] 1 (by decide) (by decide)

/-! ## C7 — Random policy -/

/-- C7, counterexample.  With the random oracle drawing index `0` first,
the Random policy returns `0` although server `0` fails the capacity
pre-check for the `(10, 6)` request and server `1` passes it: the claim
"whenever at least one server passes the admission pre-check, the
returned index is one that passes it" is false, because the policy's
check is a truthy property reference and the first draw is always
returned. -/
theorem C7_counterexample :
    RandomAlgorithm.selectServer (fun _ => 0) [exServerFull, exServerEmpty] 0 = 0 ∧
    ¬ exServerFull.canHandleRequest exRequest ∧
    exServerEmpty.canHandleRequest exRequest := by
  refine ⟨?_, exServerFull_not_canHandle, exServerEmpty_canHandle⟩
  exact random_selectServer_eq (fun _ => 0) _ 0 (by decide)

/-- C7 (amended): for every non-empty server list,
`RandomAlgorithm.selectServer` returns the first index drawn from the
random oracle, unconditionally: the truthy property check accepts it
regardless of capacity, so no sampling without replacement takes place
and the returned index may be inadmissible even when admissible servers
exist. -/
theorem C7_random_returns_first_draw (oracle : ℕ → ℕ) (servers : List Server)
    (currentIndex : ℕ) (h0 : 0 < servers.length) :
    RandomAlgorithm.selectServer oracle servers currentIndex =
      oracle 0 % servers.length :=
  random_selectServer_eq oracle servers currentIndex h0

/-- C7, witness for the amended theorem at a concrete input. -/
theorem C7_random_returns_first_draw_witness :
    RandomAlgorithm.selectServer (fun _ => 1) [exServerFull, exServerEmpty] 0 = 1 % 2 :=
  C7_random_returns_first_draw (fun _ => 1) [exServerFull, exServerEmpty] 0 (by decide)

/-! ## C5 — out-of-range policy index -/

/-- C5, counterexample.  With a policy returning index `5` against the
4-server constructor state, `createRequest` does not treat the submission
as Rejected: it throws (the `undefined.canHandleRequest` `TypeError`,
modelled as `Except.error`), and the error state shows the rejection
counter was never incremented — only the request-id counter was. -/
theorem C5_counterexample :
    LoadBalancerSimulation.createRequest initState (fun _ _ => 5) 0 1 0 =
      Except.error { initState with requestCount := 1 } ∧
    ({ initState with requestCount := 1 } : SimState).totalRejectedRequests =
      initState.totalRejectedRequests := by
  exact ⟨rfl, rfl⟩

/-- C5 (amended): when the active policy returns an index outside
`[0, serverCount)`, the driver performs the unguarded access
`this.servers[serverIndex]` and the submission fails with a thrown
`TypeError` (modelled as an `Except.error` outcome) instead of being
counted as a rejection; no server changes and no rejection counter
changes — the only mutation already performed is the arrival (request-id)
counter increment. -/
theorem C5_out_of_range_throws (st : SimState) (select : List Server → ℕ → ℕ)
    (typeChoice : ℕ) (duration now : ℚ)
    (h : st.servers.length ≤ select st.servers st.currentServerIndex) :
    LoadBalancerSimulation.createRequest st select typeChoice duration now =
      Except.error { st with requestCount := st.requestCount + 1 } :=
  createRequest_out_of_range st select typeChoice duration now h

/-- C5, witness for the amended theorem at a concrete input. -/
theorem C5_out_of_range_throws_witness :
    LoadBalancerSimulation.createRequest exHistState (fun _ _ => 9) 2 1 0 =
      Except.error { exHistState with requestCount := 1 } :=
  C5_out_of_range_throws exHistState (fun _ _ => 9) 2 1 0 (by decide)

/-! ## C4 — reset -/

/-- C4, counterexample.  Starting from a state whose balance histories
hold one sample, `resetSimulation` leaves both history buffers untouched
and non-empty: the claim that reset clears the Statistics Engine's
balance-history buffer is false (neither `resetSimulation` nor
`clearRequests` ever writes `cpuBalanceHistory`/`memoryBalanceHistory`). -/
theorem C4_counterexample :
    (resetSimulation exHistState).cpuBalanceHistory = [50] ∧
    (resetSimulation exHistState).memoryBalanceHistory = [50] ∧
    (resetSimulation exHistState).cpuBalanceHistory ≠ [] ∧
    (resetSimulation exHistState).memoryBalanceHistory ≠ [] := by
  refine ⟨rfl, rfl, by decide, by decide⟩

/-- C4 (amended): `resetSimulation` replaces all servers by four fresh
ones — thereby clearing every server's active request set and zeroing its
completed-count, cumulative-response-time and rejected counters — resets
the round-robin cursor, and zeroes the global arrival (request-id)
counter and the simulation-wide rejection counter; but it leaves the
cpu- and memory-balance history buffers exactly as they were (they are
never cleared). -/
theorem C4_reset_state (st : SimState) :
    resetSimulation st =
      { st with
        servers := List.replicate 4 freshServer
        currentServerIndex := 0
        numServers := 4
        requestCount := 0
        totalRejectedRequests := 0 } := by
  rfl

/-! ## The scan-for-minimum fold -/

/-- Characterisation of the `forEach` minimum scan: folding the
strict-improvement step over an index list either leaves the accumulator
untouched (no score beats it) or ends at an index `i` of the list whose
score strictly beats the initial bound and every earlier score, and is at
most every later score. -/
theorem selectMinIndex_foldl_spec {α : Type} [LinearOrder α] (score : ℕ → α) :
    ∀ (l : List ℕ) (v : WithTop α) (r : ℕ),
      (l.foldl
          (fun acc index =>
            if (score index : WithTop α) < acc.1 then ((score index : WithTop α), index) else acc)
          (v, r) = (v, r)
        ∧ ∀ x ∈ l, v ≤ (score x : WithTop α))
      ∨ (∃ l₁ i l₂, l = l₁ ++ i :: l₂
          ∧ l.foldl
              (fun acc index =>
                if (score index : WithTop α) < acc.1 then ((score index : WithTop α), index) else acc)
              (v, r) = ((score i : WithTop α), i)
          ∧ (score i : WithTop α) < v
          ∧ (∀ x ∈ l₁, score i < score x)
          ∧ (∀ x ∈ l₂, score i ≤ score x)) := by
  intro l
  induction l with
  | nil => intro v r; exact Or.inl ⟨rfl, by simp⟩
  | cons a l ih =>
    intro v r
    rw [List.foldl_cons]
    by_cases h : (score a : WithTop α) < v
    · rw [if_pos h]
      rcases ih (score a : WithTop α) a with ⟨heq, hall⟩ | ⟨l₁, i, l₂, hl, heq, hlt, h₁, h₂⟩
      · refine Or.inr ⟨[], a, l, rfl, heq, h, by simp, fun x hx => ?_⟩
        exact_mod_cast hall x hx
      · refine Or.inr ⟨a :: l₁, i, l₂, by rw [hl]; rfl, heq, lt_trans hlt h, ?_, h₂⟩
        intro x hx
        rcases List.mem_cons.mp hx with hx | hx
        · subst hx; exact_mod_cast hlt
        · exact h₁ x hx
    · rw [if_neg h]
      rcases ih v r with ⟨heq, hall⟩ | ⟨l₁, i, l₂, hl, heq, hlt, h₁, h₂⟩
      · refine Or.inl ⟨heq, fun x hx => ?_⟩
        rcases List.mem_cons.mp hx with hx | hx
        · subst hx; exact not_lt.mp h
        · exact hall x hx
      · refine Or.inr ⟨a :: l₁, i, l₂, by rw [hl]; rfl, heq, hlt, ?_, h₂⟩
        intro x hx
        rcases List.mem_cons.mp hx with hx | hx
        · subst hx; exact_mod_cast lt_of_lt_of_le hlt (not_lt.mp h)
        · exact h₁ x hx

/-- For a nonempty index range, the minimum scan returns the lowest index
attaining the minimal score: the result is in range, its score is minimal,
and it strictly beats every smaller index. -/
theorem selectMinIndex_spec {α : Type} [LinearOrder α] (score : ℕ → α) (n : ℕ)
    (hn : 0 < n) :
    selectMinIndex score n < n
    ∧ (∀ j, j < n → score (selectMinIndex score n) ≤ score j)
    ∧ (∀ j, j < selectMinIndex score n → score j > score (selectMinIndex score n)) := by
  rcases selectMinIndex_foldl_spec score (List.range n) (⊤ : WithTop α) 0 with
    ⟨heq, hall⟩ | ⟨l₁, i, l₂, hl, heq, hlt, h₁, h₂⟩
  · have h0 : (0 : ℕ) ∈ List.range n := List.mem_range.mpr hn
    have := hall 0 h0
    simp at this
  · have hres : selectMinIndex score n = i := by
      unfold selectMinIndex
      rw [heq]
    have hi : i ∈ List.range n := by rw [hl]; exact List.mem_append_right _ (List.mem_cons_self _ _)
    have hin : i < n := List.mem_range.mp hi
    have hl₁ : l₁ = List.range l₁.length := by
      have htake : (List.range n).take l₁.length = l₁ := by rw [hl]; exact List.take_left l₁ _
      have hlen : l₁.length ≤ n := by
        have := congrArg List.length hl
        simp [List.length_range] at this
        omega
      rw [List.take_range, Nat.min_eq_left hlen] at htake
      exact htake.symm
    have hipos : i = l₁.length := by
      have h1 : (List.range n)[l₁.length]? = some l₁.length := by
        rw [List.getElem?_range]
        have := congrArg List.length hl
        simp [List.length_range] at this
        omega
      have h2 : (List.range n)[l₁.length]? = some i := by
        rw [hl, List.getElem?_append_right (le_refl l₁.length)]
        simp
      rw [h1] at h2
      exact (Option.some_injective _ h2).symm
    refine ⟨by rw [hres]; exact hin, fun j hj => ?_, fun j hj => ?_⟩
    · rw [hres]
      have hjmem : j ∈ List.range n := List.mem_range.mpr hj
      rw [hl] at hjmem
      rcases List.mem_append.mp hjmem with hjl | hjr
      · exact le_of_lt (h₁ j hjl)
      · rcases List.mem_cons.mp hjr with hji | hjl₂
        · subst hji; exact le_refl _
        · exact h₂ j hjl₂
    · rw [hres] at hj ⊢
      have : j ∈ l₁ := by
        rw [hl₁]
        exact List.mem_range.mpr (by omega)
      exact h₁ j this

/-! ## C8 — Least Response Time -/

/-- C8: for every non-empty server list (and any cursor, which the policy
ignores), `LeastResponseTimeAlgorithm.selectServer` returns the lowest
index minimising the effective score
`LeastResponseTimeAlgorithm.effectiveTime` — which is
`activeRequests.length * 100` when the average response time is `0` (in
particular for servers with zero completions) and
`cumulativeResponseTime / completedCount` otherwise: the result is in
range, its effective score is at most every server's, and every smaller
index has a strictly larger effective score (lower index wins ties). -/
theorem C8_leastResponseTime_first_argmin (servers : List Server) (currentIndex : ℕ)
    (h : servers ≠ []) :
    LeastResponseTimeAlgorithm.selectServer servers currentIndex < servers.length
    ∧ (∀ j, j < servers.length →
        LeastResponseTimeAlgorithm.effectiveTime
            (servers.getD (LeastResponseTimeAlgorithm.selectServer servers currentIndex) default)
          ≤ LeastResponseTimeAlgorithm.effectiveTime (servers.getD j default))
    ∧ (∀ j, j < LeastResponseTimeAlgorithm.selectServer servers currentIndex →
        LeastResponseTimeAlgorithm.effectiveTime (servers.getD j default)
          > LeastResponseTimeAlgorithm.effectiveTime
              (servers.getD (LeastResponseTimeAlgorithm.selectServer servers currentIndex) default)) :=
  selectMinIndex_spec
    (fun index => LeastResponseTimeAlgorithm.effectiveTime (servers.getD index default))
    servers.length (List.length_pos.mpr h)

/-- C8, witness at a concrete input: the selected index is in range and
its effective score is at most that of server 1. -/
theorem C8_leastResponseTime_first_argmin_witness :
    LeastResponseTimeAlgorithm.selectServer [exServerFull, exServerEmpty] 0 < 2
    ∧ LeastResponseTimeAlgorithm.effectiveTime
        ([exServerFull, exServerEmpty].getD
          (LeastResponseTimeAlgorithm.selectServer [exServerFull, exServerEmpty] 0) default)
      ≤ LeastResponseTimeAlgorithm.effectiveTime
          ([exServerFull, exServerEmpty].getD 1 default) :=
  ⟨(C8_leastResponseTime_first_argmin [exServerFull, exServerEmpty] 0
      (List.cons_ne_nil _ _)).1,
   (C8_leastResponseTime_first_argmin [exServerFull, exServerEmpty] 0
      (List.cons_ne_nil _ _)).2.1 1 (by decide)⟩

/-! ## C10 — all built-in policies return an in-range index -/

/-- C10: for every non-empty server list, every cursor in
`[0, serverCount)` and every random oracle, each of the five built-in
`selectServer` implementations returns an index in `[0, serverCount)`, so
the driver's unguarded `this.servers[serverIndex]` access never goes out
of bounds under a built-in policy. -/
theorem C10_policies_in_range (servers : List Server) (currentIndex : ℕ)
    (oracle : ℕ → ℕ) (h0 : 0 < servers.length) (hc : currentIndex < servers.length) :
    RoundRobinAlgorithm.selectServer servers currentIndex < servers.length
    ∧ RandomAlgorithm.selectServer oracle servers currentIndex < servers.length
    ∧ LeastRequestsAlgorithm.selectServer servers currentIndex < servers.length
    ∧ LeastResponseTimeAlgorithm.selectServer servers currentIndex < servers.length
    ∧ DynamicAlgorithm.selectServer servers currentIndex < servers.length := by
  refine ⟨?_, ?_, ?_, ?_, ?_⟩
  · rw [roundRobin_selectServer_eq servers currentIndex h0 hc]
    exact hc
  · rw [random_selectServer_eq oracle servers currentIndex h0]
    exact Nat.mod_lt _ h0
  · exact (selectMinIndex_spec
      (fun index => (servers.getD index default).requests.length) servers.length h0).1
  · exact (selectMinIndex_spec
      (fun index => LeastResponseTimeAlgorithm.effectiveTime (servers.getD index default))
      servers.length h0).1
  · exact (selectMinIndex_spec
      (fun index => (servers.getD index default).getCurrentLoad.1) servers.length h0).1

/-- C10, witness at a concrete input. -/
theorem C10_policies_in_range_witness :
    RoundRobinAlgorithm.selectServer [exServerFull, exServerEmpty] 1 < 2
    ∧ RandomAlgorithm.selectServer (fun _ => 3) [exServerFull, exServerEmpty] 1 < 2
    ∧ LeastRequestsAlgorithm.selectServer [exServerFull, exServerEmpty] 1 < 2
    ∧ LeastResponseTimeAlgorithm.selectServer [exServerFull, exServerEmpty] 1 < 2
    ∧ DynamicAlgorithm.selectServer [exServerFull, exServerEmpty] 1 < 2 :=
  C10_policies_in_range [exServerFull, exServerEmpty] 1 (fun _ => 3)
    (by decide) (by decide)

/-! ## C2 — admission decision -/

/-- C2: when the active policy selects an in-range server index,
`createRequest` admits the request exactly when that server's
`canHandleRequest` test passes (current cpu + demand ≤ 100 and current
memory + demand ≤ 100).  On admission the request is appended to exactly
that server's active set (all other servers and all rejection counters
unchanged) and the cursor advances; on failure the selected server's
rejection counter and the simulation-wide rejection counter each grow by
exactly one, no server's active set changes, and the request appears
nowhere in the new state — it is discarded, never retried or re-queued. -/
theorem C2_admission_decision (st : SimState) (select : List Server → ℕ → ℕ)
    (typeChoice : ℕ) (duration now : ℚ)
    (h : select st.servers st.currentServerIndex < st.servers.length) :
    ((st.servers.get ⟨select st.servers st.currentServerIndex, h⟩).canHandleRequest
        (mkRequest st typeChoice duration now) →
      LoadBalancerSimulation.createRequest st select typeChoice duration now =
        Except.ok { st with
          requestCount := st.requestCount + 1
          currentServerIndex := (select st.servers st.currentServerIndex + 1) % st.numServers
          servers := st.servers.set (select st.servers st.currentServerIndex)
            ((st.servers.get ⟨select st.servers st.currentServerIndex, h⟩).addRequest
              (mkRequest st typeChoice duration now)) })
    ∧ (¬ (st.servers.get ⟨select st.servers st.currentServerIndex, h⟩).canHandleRequest
        (mkRequest st typeChoice duration now) →
      LoadBalancerSimulation.createRequest st select typeChoice duration now =
        Except.ok { st with
          requestCount := st.requestCount + 1
          totalRejectedRequests := st.totalRejectedRequests + 1
          servers := st.servers.set (select st.servers st.currentServerIndex)
            { st.servers.get ⟨select st.servers st.currentServerIndex, h⟩ with
              rejectedRequests :=
                (st.servers.get ⟨select st.servers st.currentServerIndex, h⟩).rejectedRequests
                  + 1 } }) := by
  constructor
  · intro hc
    unfold LoadBalancerSimulation.createRequest
    dsimp only
    rw [dif_pos h, if_pos hc]
  · intro hc
    unfold LoadBalancerSimulation.createRequest
    dsimp only
    rw [dif_pos h, if_neg hc]

/-- C2, witness at a concrete input: submitting a catalog-type-0 request
to the fresh 4-server state under a policy selecting index 0 admits it
onto server 0. -/
theorem C2_admission_decision_witness :
    LoadBalancerSimulation.createRequest initState (fun _ _ => 0) 0 1 0 =
      Except.ok { initState with
        requestCount := 1
        currentServerIndex := 1 % 4
        servers := (List.replicate 4 freshServer).set 0
          (freshServer.addRequest (mkRequest initState 0 1 0)) } :=
  (C2_admission_decision initState (fun _ _ => 0) 0 1 0 (by decide)).1
    (by
      simp only [Server.canHandleRequest, Server.getCurrentLoad, mkRequest, initState,
        freshServer, requestTypes, Server.maxCpu, Server.maxMemory]
      norm_num)

/-! ## C6 — balance score -/

/-- The `Math.max(...)`-style fold is nonnegative from its base value. -/
theorem foldr_max_nonneg (l : List ℚ) : 0 ≤ l.foldr max 0 := by
  induction l with
  | nil => exact le_refl 0
  | cons a l ih => exact le_max_of_le_right ih

/-- `jsRound` maps `[0, 100]` into the integers `0, …, 100`. -/
theorem jsRound_mem_range (q : ℚ) (h0 : 0 ≤ q) (h1 : q ≤ 100) :
    0 ≤ jsRound q ∧ jsRound q ≤ 100 := by
  unfold jsRound
  constructor
  · exact Int.le_floor.mpr (by push_cast; linarith)
  · rw [Int.floor_le_iff]
    push_cast
    linarith

/-- C6: `calculateBalanceScore` follows the rounded
`max(0, 100 * (1 - maxDeviation / (2 * mean)))` formula with the empty
and zero-mean special cases, and consequently, for every list of
nonnegative values, its result is an integer in `[0, 100]`; it is exactly
`100` for the empty list and for an all-zero list. -/
theorem C6_balance_score_bounds (values : List ℚ) (hv : ∀ v ∈ values, 0 ≤ v) :
    (0 ≤ calculateBalanceScore values ∧ calculateBalanceScore values ≤ 100)
    ∧ calculateBalanceScore [] = 100
    ∧ (values.all (fun v => decide (v = 0)) = true → calculateBalanceScore values = 100) := by
  refine ⟨?_, rfl, ?_⟩
  · unfold calculateBalanceScore
    by_cases hlen : values.length = 0
    · rw [if_pos hlen]
      norm_num
    · rw [if_neg hlen]
      dsimp only
      by_cases hm : values.sum / (values.length : ℚ) = 0
      · rw [if_pos hm]
        norm_num
      · rw [if_neg hm]
        have hlpos : 0 < (values.length : ℚ) := by
          exact_mod_cast Nat.pos_of_ne_zero hlen
        have hsum : 0 ≤ values.sum := List.sum_nonneg hv
        have hmean : 0 < values.sum / (values.length : ℚ) :=
          lt_of_le_of_ne (div_nonneg hsum hlpos.le) (Ne.symm hm)
        have hdev : 0 ≤ (values.map
            (fun v => |v - values.sum / (values.length : ℚ)|)).foldr max 0 :=
          foldr_max_nonneg _
        have hfrac : 0 ≤ (values.map
            (fun v => |v - values.sum / (values.length : ℚ)|)).foldr max 0 /
              (values.sum / (values.length : ℚ) * 2) :=
          div_nonneg hdev (by positivity)
        exact jsRound_mem_range _ (le_max_left _ _) (max_le (by norm_num) (by linarith))
  · intro hall
    have hz : ∀ v ∈ values, v = 0 := by simpa using hall
    unfold calculateBalanceScore
    by_cases hlen : values.length = 0
    · rw [if_pos hlen]
    · rw [if_neg hlen]
      dsimp only
      rw [List.sum_eq_zero hz, zero_div, if_pos rfl]

/-- C6, witness at a concrete input: `calculateBalanceScore [1, 3]` lies
in `[0, 100]`, and the two exact-100 special cases. -/
theorem C6_balance_score_bounds_witness :
    ((0 ≤ calculateBalanceScore [1, 3] ∧ calculateBalanceScore [1, 3] ≤ 100)
    ∧ calculateBalanceScore [] = 100
    ∧ (([1, 3] : List ℚ).all (fun v => decide (v = 0)) = true →
        calculateBalanceScore [1, 3] = 100)) :=
  C6_balance_score_bounds [1, 3]
    (by intro v hv; fin_cases hv <;> norm_num)

/-! ## C1 — capacity invariant -/

/-- Every catalog entry (and the out-of-range default) has nonnegative
demands. -/
theorem requestTypes_getD_nonneg (k : ℕ) :
    0 ≤ (requestTypes.getD k (0, 0)).1 ∧ 0 ≤ (requestTypes.getD k (0, 0)).2 := by
  rcases k with _ | _ | _ | _ | k
  · constructor <;> norm_num [requestTypes]
  · constructor <;> norm_num [requestTypes]
  · constructor <;> norm_num [requestTypes]
  · constructor <;> norm_num [requestTypes]
  · rw [List.getD_eq_default _ _ (by simp [requestTypes])]
    constructor <;> norm_num

/-- Every request the driver constructs has nonnegative demands. -/
theorem mkRequest_nonneg (st : SimState) (typeChoice : ℕ) (duration now : ℚ) :
    0 ≤ (mkRequest st typeChoice duration now).cpuLoad ∧
    0 ≤ (mkRequest st typeChoice duration now).memoryLoad :=
  requestTypes_getD_nonneg _

/-- A fresh server satisfies the capacity invariant. -/
theorem ServerInv_fresh : ServerInv freshServer := by
  refine ⟨by simp [freshServer], ?_, ?_⟩ <;>
    simp [freshServer, Server.getCurrentLoad, Server.maxCpu, Server.maxMemory]

/-- `addRequest` adds the request's demands to the loads. -/
theorem getCurrentLoad_addRequest (s : Server) (r : Request) :
    (s.addRequest r).getCurrentLoad =
      (s.getCurrentLoad.1 + r.cpuLoad, s.getCurrentLoad.2 + r.memoryLoad) := by
  simp [Server.addRequest, Server.getCurrentLoad]

/-- Admitting a request that passes `canHandleRequest` preserves the
capacity invariant. -/
theorem ServerInv_addRequest (s : Server) (r : Request) (hs : ServerInv s)
    (hr : 0 ≤ r.cpuLoad ∧ 0 ≤ r.memoryLoad) (hcan : s.canHandleRequest r) :
    ServerInv (s.addRequest r) := by
  refine ⟨?_, ?_, ?_⟩
  · intro x hx
    rcases List.mem_append.mp hx with hx | hx
    · exact hs.1 x hx
    · rcases List.mem_singleton.mp hx with rfl
      exact hr
  · rw [getCurrentLoad_addRequest]
    exact hcan.1
  · rw [getCurrentLoad_addRequest]
    exact hcan.2

/-- Bumping the rejection counter does not affect the capacity
invariant. -/
theorem ServerInv_rejectedBump (s : Server) (hs : ServerInv s) :
    ServerInv { s with rejectedRequests := s.rejectedRequests + 1 } := hs

/-- A mapped sum over a filtered list of nonnegative contributions is at
most the sum over the whole list. -/
theorem sum_map_filter_le (f : Request → ℚ) (p : Request → Bool) (l : List Request)
    (h : ∀ r ∈ l, 0 ≤ f r) :
    ((l.filter p).map f).sum ≤ (l.map f).sum := by
  induction l with
  | nil => simp
  | cons a l ih =>
    have ih' := ih (fun r hr => h r (List.mem_cons_of_mem a hr))
    rw [List.filter_cons]
    by_cases hp : p a
    · rw [if_pos hp]
      simpa using add_le_add_left ih' (f a)
    · rw [if_neg hp]
      have ha : 0 ≤ f a := h a (List.mem_cons_self a l)
      calc ((l.filter p).map f).sum ≤ (l.map f).sum := ih'
        _ ≤ f a + (l.map f).sum := le_add_of_nonneg_left ha
        _ = ((a :: l).map f).sum := by simp

/-- Per-tick reclamation (removing completed requests) preserves the
capacity invariant. -/
theorem ServerInv_updateRequests (s : Server) (now : ℚ) (hs : ServerInv s) :
    ServerInv (s.updateRequests now) := by
  refine ⟨?_, ?_, ?_⟩
  · intro x hx
    exact hs.1 x (List.mem_of_mem_filter hx)
  · exact le_trans
      (sum_map_filter_le Request.cpuLoad _ s.requests (fun r hr => (hs.1 r hr).1)) hs.2.1
  · exact le_trans
      (sum_map_filter_le Request.memoryLoad _ s.requests (fun r hr => (hs.1 r hr).2)) hs.2.2

/-- Clearing a server's request list (and rejection counter) restores the
capacity invariant trivially. -/
theorem ServerInv_cleared (s : Server) :
    ServerInv { s with requests := [], rejectedRequests := 0 } := by
  refine ⟨by simp, ?_, ?_⟩ <;>
    simp [Server.getCurrentLoad, Server.maxCpu, Server.maxMemory]

/-- `createRequest` preserves the capacity invariant, whether it admits,
rejects, or throws.  The admission branch is guarded by
`canHandleRequest`, checked before the active set is mutated. -/
theorem createRequest_preserves_SimInv (st : SimState) (select : List Server → ℕ → ℕ)
    (typeChoice : ℕ) (duration now : ℚ) (hst : SimInv st) (st' : SimState)
    (hres : LoadBalancerSimulation.createRequest st select typeChoice duration now =
        Except.ok st' ∨
      LoadBalancerSimulation.createRequest st select typeChoice duration now =
        Except.error st') :
    SimInv st' := by
  unfold LoadBalancerSimulation.createRequest at hres
  dsimp only at hres
  by_cases h : select st.servers st.currentServerIndex < st.servers.length
  · rw [dif_pos h] at hres
    by_cases hc : (st.servers.get ⟨select st.servers st.currentServerIndex, h⟩).canHandleRequest
        (mkRequest st typeChoice duration now)
    · rw [if_pos hc] at hres
      rcases hres with hres | hres
      · simp only [Except.ok.injEq] at hres
        subst hres
        intro s hs
        rcases List.mem_or_eq_of_mem_set hs with hs | hs
        · exact hst s hs
        · subst hs
          exact ServerInv_addRequest _ _ (hst _ (st.servers.get_mem _ _))
            (mkRequest_nonneg st typeChoice duration now) hc
      · simp at hres
    · rw [if_neg hc] at hres
      rcases hres with hres | hres
      · simp only [Except.ok.injEq] at hres
        subst hres
        intro s hs
        rcases List.mem_or_eq_of_mem_set hs with hs | hs
        · exact hst s hs
        · subst hs
          exact ServerInv_rejectedBump _ (hst _ (st.servers.get_mem _ _))
      · simp at hres
  · rw [dif_neg h] at hres
    rcases hres with hres | hres
    · simp at hres
    · simp only [Except.error.injEq] at hres
      subst hres
      exact hst

/-- `updateStatsDisplay` never touches the server list. -/
theorem updateStatsDisplay_servers (st : SimState) :
    (LoadBalancerSimulation.updateStatsDisplay st).servers = st.servers := by
  unfold LoadBalancerSimulation.updateStatsDisplay
  dsimp only
  split <;> rfl

/-- C1 auxiliary: every reachable state satisfies the capacity
invariant. -/
theorem Reachable_SimInv {st : SimState} (h : Reachable st) : SimInv st := by
  induction h with
  | init =>
    intro s hs
    simp only [initState] at hs
    rcases List.eq_of_mem_replicate hs with rfl
    exact ServerInv_fresh
  | submit_ok hr heq ih =>
    exact createRequest_preserves_SimInv _ _ _ _ _ ih _ (Or.inl heq)
  | submit_err hr heq ih =>
    exact createRequest_preserves_SimInv _ _ _ _ _ ih _ (Or.inr heq)
  | tick now hr ih =>
    intro s hs
    rcases List.mem_map.mp hs with ⟨a, ha, rfl⟩
    exact ServerInv_updateRequests a now (ih a ha)
  | sample hr ih =>
    intro s hs
    rw [updateStatsDisplay_servers] at hs
    exact ih s hs
  | clear hr ih =>
    intro s hs
    rcases List.mem_map.mp hs with ⟨a, ha, rfl⟩
    exact ServerInv_cleared a
  | setServers count hr ih =>
    intro s hs
    rcases List.eq_of_mem_replicate hs with rfl
    exact ServerInv_fresh
  | reset hr ih =>
    intro s hs
    rcases List.mem_map.mp hs with ⟨a, ha, rfl⟩
    exact ServerInv_cleared a

/-- C1: at every observable instant — that is, in every state reachable
through any sequence of admissions (under any policy), per-tick
reclamations, samples, clears, reconfigurations and resets — every
server's summed active cpu load is at most 100 and its summed active
memory load is at most 100.  Admission (`canHandleRequest`) is checked
before the active set is mutated, so each atomic step preserves the
bound and it is never exceeded even transiently. -/
theorem C1_capacity_invariant {st : SimState} (h : Reachable st) :
    ∀ s ∈ st.servers, s.getCurrentLoad.1 ≤ 100 ∧ s.getCurrentLoad.2 ≤ 100 :=
  fun s hs => ⟨(Reachable_SimInv h s hs).2.1, (Reachable_SimInv h s hs).2.2⟩

/-- C1, witness: the invariant instantiated at the constructor state and
its first server. -/
theorem C1_capacity_invariant_witness :
    freshServer.getCurrentLoad.1 ≤ 100 ∧ freshServer.getCurrentLoad.2 ≤ 100 :=
  C1_capacity_invariant Reachable.init freshServer
    (List.mem_replicate.mpr ⟨by norm_num, rfl⟩)

/-! ## C9 — balance history -/

/-- `createRequest` never touches the balance histories, whether it
admits, rejects, or throws. -/
theorem createRequest_hist (st : SimState) (select : List Server → ℕ → ℕ)
    (typeChoice : ℕ) (duration now : ℚ) (st' : SimState)
    (hres : LoadBalancerSimulation.createRequest st select typeChoice duration now =
        Except.ok st' ∨
      LoadBalancerSimulation.createRequest st select typeChoice duration now =
        Except.error st') :
    st'.cpuBalanceHistory = st.cpuBalanceHistory ∧
    st'.memoryBalanceHistory = st.memoryBalanceHistory := by
  unfold LoadBalancerSimulation.createRequest at hres
  dsimp only at hres
  by_cases h : select st.servers st.currentServerIndex < st.servers.length
  · rw [dif_pos h] at hres
    by_cases hc : (st.servers.get ⟨select st.servers st.currentServerIndex, h⟩).canHandleRequest
        (mkRequest st typeChoice duration now)
    · rw [if_pos hc] at hres
      rcases hres with hres | hres
      · simp only [Except.ok.injEq] at hres
        subst hres
        exact ⟨rfl, rfl⟩
      · simp at hres
    · rw [if_neg hc] at hres
      rcases hres with hres | hres
      · simp only [Except.ok.injEq] at hres
        subst hres
        exact ⟨rfl, rfl⟩
      · simp at hres
  · rw [dif_neg h] at hres
    rcases hres with hres | hres
    · simp at hres
    · simp only [Except.error.injEq] at hres
      subst hres
      exact ⟨rfl, rfl⟩

/-- C9 auxiliary: in every reachable state the two balance histories have
equal length, bounded by the fixed capacity. -/
theorem Reachable_hist {st : SimState} (h : Reachable st) :
    st.cpuBalanceHistory.length = st.memoryBalanceHistory.length ∧
    st.cpuBalanceHistory.length ≤ maxDataPoints := by
  induction h with
  | init => simp [initState]
  | submit_ok hr heq ih =>
    obtain ⟨h1, h2⟩ := createRequest_hist _ _ _ _ _ _ (Or.inl heq)
    rw [h1, h2]
    exact ih
  | submit_err hr heq ih =>
    obtain ⟨h1, h2⟩ := createRequest_hist _ _ _ _ _ _ (Or.inr heq)
    rw [h1, h2]
    exact ih
  | tick now hr ih => exact ih
  | sample hr ih =>
    obtain ⟨heq, hle⟩ := ih
    unfold LoadBalancerSimulation.updateStatsDisplay
    dsimp only
    split
    · next hcond =>
      constructor
      · simp [heq]
      · simp only [List.length_tail, List.length_append, List.length_singleton]
        omega
    · next hcond =>
      constructor
      · simp [heq]
      · simp only [not_lt, List.length_append, List.length_singleton, maxDataPoints] at hcond ⊢
        omega
  | clear hr ih => exact ih
  | setServers count hr ih => exact ih
  | reset hr ih => exact ih

/-- C9: after every statistics sample on a reachable state, the cpu- and
memory-balance histories have equal length, that length never exceeds the
fixed capacity 50, and each history equals the old history (its oldest
entry dropped exactly when the buffer was full, FIFO) with the new
balance score appended at the end — so the sequence is ordered
oldest-first. -/
theorem C9_balance_history (st : SimState) (h : Reachable st) :
    (LoadBalancerSimulation.updateStatsDisplay st).cpuBalanceHistory.length =
      (LoadBalancerSimulation.updateStatsDisplay st).memoryBalanceHistory.length
    ∧ (LoadBalancerSimulation.updateStatsDisplay st).cpuBalanceHistory.length ≤ maxDataPoints
    ∧ (LoadBalancerSimulation.updateStatsDisplay st).cpuBalanceHistory =
        (if st.cpuBalanceHistory.length < maxDataPoints then st.cpuBalanceHistory
         else st.cpuBalanceHistory.tail)
        ++ [calculateBalanceScore (st.servers.map (fun s => s.getCurrentLoad.1))]
    ∧ (LoadBalancerSimulation.updateStatsDisplay st).memoryBalanceHistory =
        (if st.memoryBalanceHistory.length < maxDataPoints then st.memoryBalanceHistory
         else st.memoryBalanceHistory.tail)
        ++ [calculateBalanceScore (st.servers.map (fun s => s.getCurrentLoad.2))] := by
  obtain ⟨heq, hle⟩ := Reachable_hist h
  unfold LoadBalancerSimulation.updateStatsDisplay
  dsimp only
  split
  · next hcond =>
    have hL : st.cpuBalanceHistory.length = 50 := by
      simp only [List.length_append, List.length_singleton, maxDataPoints] at hcond hle
      omega
    have hM : st.memoryBalanceHistory.length = 50 := by omega
    refine ⟨by simp [heq], ?_, ?_, ?_⟩
    · simp only [List.length_tail, List.length_append, List.length_singleton, maxDataPoints]
      omega
    · rw [if_neg (by simp only [maxDataPoints]; omega)]
      cases hcl : st.cpuBalanceHistory with
      | nil => rw [hcl] at hL; simp at hL
      | cons a rest => simp
    · rw [if_neg (by simp only [maxDataPoints]; omega)]
      cases hml : st.memoryBalanceHistory with
      | nil => rw [hml] at hM; simp at hM
      | cons a rest => simp
  · next hcond =>
    have hL : st.cpuBalanceHistory.length < 50 := by
      simp only [not_lt, List.length_append, List.length_singleton, maxDataPoints] at hcond
      omega
    refine ⟨by simp [heq], ?_, ?_, ?_⟩
    · simp only [List.length_append, List.length_singleton, maxDataPoints]
      omega
    · rw [if_pos (by simp only [maxDataPoints]; omega)]
    · rw [if_pos (by simp only [maxDataPoints]; omega)]

/-- C9, witness: one sample on the constructor state. -/
theorem C9_balance_history_witness :
    (LoadBalancerSimulation.updateStatsDisplay initState).cpuBalanceHistory.length =
      (LoadBalancerSimulation.updateStatsDisplay initState).memoryBalanceHistory.length
    ∧ (LoadBalancerSimulation.updateStatsDisplay initState).cpuBalanceHistory.length ≤
        maxDataPoints
    ∧ (LoadBalancerSimulation.updateStatsDisplay initState).cpuBalanceHistory =
        (if initState.cpuBalanceHistory.length < maxDataPoints then initState.cpuBalanceHistory
         else initState.cpuBalanceHistory.tail)
        ++ [calculateBalanceScore (initState.servers.map (fun s => s.getCurrentLoad.1))]
    ∧ (LoadBalancerSimulation.updateStatsDisplay initState).memoryBalanceHistory =
        (if initState.memoryBalanceHistory.length < maxDataPoints
         then initState.memoryBalanceHistory
         else initState.memoryBalanceHistory.tail)
        ++ [calculateBalanceScore (initState.servers.map (fun s => s.getCurrentLoad.2))] :=
  C9_balance_history initState Reachable.init
